import Mathlib

/-!
# A shallow embedding of the DPoS consensus context (`core/dpos_context.go`)

This file models the Delegated Proof-of-Stake context of go-nebulas: the six
authenticated tries, the vote tally, candidate ranking, the kick-out engine,
dynasty election with pseudo-random tail selection, and the scheduler view
that resolves the proposer of a slot.

Modelling conventions:
* `Address` abbreviates a 20-byte account address.  The code uses addresses
  only for equality and for lexicographic comparison of the fixed-length
  canonical printable form (`Address.String()`), an order isomorphic to the
  numeric order of the address bytes, so `Nat` with its linear order is a
  faithful carrier.
* A trie is modelled as a list of key/value entries; `Iterator` enumerates
  the list in order.  All addresses have the same byte length in the source,
  so a "prefix" query on the `delegate` trie (keys `delegatee ‖ delegator`)
  is exactly a filter on the first component of the pair, and a `mintCnt`
  key `encodeInt64(dynastyId) ‖ delegatee` is a `(dynastyId, delegatee)`
  pair.  Per the trie contract (spec §6/§7), `Iterator(prefix)` and
  `Get`/`Del` answer `KEY_NOT_FOUND` exactly when no key matches; the code
  converts those into empty-result semantics, which the model reproduces.
* Machine `int64` becomes `Int` with Go's truncated division/remainder
  (`Int.tdiv` / `Int.tmod`); `uint32` arithmetic in the FNV-1a hash is `Nat`
  reduced `% 2 ^ 32`; `util.Uint128` vote weights become `Nat`.
* Fallible operations return `Except DposError`; Go's slice-index panic on
  a negative slot offset is modelled as the distinguished error
  `DposError.runtimePanic`.
-/

/-- An account address, ordered by its canonical printable form. -/
abbrev Address := Nat

/-- Consensus related constants (`core/dpos_context.go` lines 36-42). -/
def BlockInterval : Int := 5

/-- Informational network delay constant. -/
def AcceptedNetWorkDelay : Int := 2

/-- Seconds per dynasty. -/
def DynastyInterval : Int := 60

/-- Number of validators in a dynasty. -/
def DynastySize : Nat := 6

/-- Minimal candidate count for an election to succeed. -/
def SafeSize : Nat := DynastySize / 3 + 1

/-- Genesis block timestamp.  External to the modelled file; its value is
irrelevant to every property proved here. -/
def GenesisTimestamp : Int := 0

/-- Errors surfaced by the modelled operations.  `runtimePanic` models the
Go runtime panic raised by indexing a slice with a negative index. -/
inductive DposError where
  | tooFewCandidates
  | notBlockForgeTime
  | initialDynastyNotEnough
  | runtimePanic
deriving DecidableEq, Repr

deriving instance DecidableEq for Except

/-- Association-list lookup, the model of `trie.Get` for value-carrying
tries (`vote`, tally maps). -/
def assocGet {β : Type} (m : List (Address × β)) (k : Address) : Option β :=
  (m.find? (fun p => decide (p.1 = k))).map (·.2)

/-- Association-list update-or-append, the model of `trie.Put` for
value-carrying tries. -/
def assocPut {β : Type} (m : List (Address × β)) (k : Address) (v : β) :
    List (Address × β) :=
  if m.any (fun p => decide (p.1 = k)) then
    m.map (fun p => if p.1 = k then (k, v) else p)
  else
    m ++ [(k, v)]

/-- `trie.Put` on the set-like tries whose value equals their key
(`dynasty`, `nextDynasty`, `candidate`). -/
def triePut (t : List Address) (k : Address) : List Address :=
  if k ∈ t then t else t ++ [k]

/-- `trie.Put` on the pair-keyed `delegate` trie (key `delegatee ‖
delegator`, value the delegator, so the entry is determined by its key). -/
def delegatePut (t : List (Address × Address)) (k : Address × Address) :
    List (Address × Address) :=
  if k ∈ t then t else t ++ [k]

/-- Lookup in the `mintCnt` trie (key `encodeInt64(dynastyId) ‖ delegatee`). -/
def mintGet (m : List ((Int × Address) × Int)) (k : Int × Address) : Option Int :=
  (m.find? (fun p => decide (p.1 = k))).map (·.2)

/-- The dynasty context at a given timestamp (`DynastyContext`, lines
211-223).  `GenesisDynasty` stands for the dynasty trie of the genesis block
that `LoadBlockFromStorage(GenesisHash, …)` reads from the storage handle;
`Accounts` is the account-state balance lookup and `AccountsRoot` the bytes
of its root hash. -/
structure DynastyContext where
  TimeStamp : Int := 0
  Offset : Int := 0
  Proposer : Option Address := none
  DynastyTrie : List Address := []
  NextDynastyTrie : List Address := []
  DelegateTrie : List (Address × Address) := []
  CandidateTrie : List Address := []
  VoteTrie : List (Address × Address) := []
  MintCntTrie : List ((Int × Address) × Int) := []
  Accounts : Address → Nat := fun _ => 0
  AccountsRoot : List Nat := []
  GenesisDynasty : List Address := []

/-- The slice of a block visible to `NextDynastyContext`: its header
timestamp, its `DposContext` tries, the account state and the storage
holding the genesis block. -/
structure Block where
  timestamp : Int := 0
  dynastyTrie : List Address := []
  nextDynastyTrie : List Address := []
  delegateTrie : List (Address × Address) := []
  candidateTrie : List Address := []
  voteTrie : List (Address × Address) := []
  mintCntTrie : List ((Int × Address) × Int) := []
  accState : Address → Nat := fun _ => 0
  accRoot : List Nat := []
  genesisDynasty : List Address := []

/-- The body of the `tallyVotes` candidate loop (lines 244-286): iterate the
`delegate` trie with the candidate as key prefix and accumulate the
delegators' balances; an empty prefix range (the iterator's `KEY_NOT_FOUND`)
records a zero score. -/
def tallyAdd (dc : DynastyContext) (delegatee : Address)
    (votes : List (Address × Nat)) (p : Address × Address) :
    List (Address × Nat) :=
  let score := (assocGet votes delegatee).getD 0
  assocPut votes delegatee (score + dc.Accounts p.2)

/-- The per-candidate body of the `tallyVotes` loop. -/
def tallyStep (dc : DynastyContext) (votes : List (Address × Nat))
    (delegatee : Address) : List (Address × Nat) :=
  let delegators := dc.DelegateTrie.filter (fun p => decide (p.1 = delegatee))
  if delegators.isEmpty then
    assocPut votes delegatee 0
  else
    delegators.foldl (tallyAdd dc delegatee) votes

/-- `DynastyContext.tallyVotes` (lines 225-288). -/
def tallyVotes (dc : DynastyContext) : List (Address × Nat) :=
  dc.CandidateTrie.foldl (tallyStep dc) []

/-- The sort relation of `Candidates.Less` (lines 301-309): higher score
first, ties broken by ascending canonical address.  `sort.Sort` is not
stable, but this relation is total, transitive and antisymmetric on
candidate entries, so every correct sort produces the same list; we model
the sort with `List.insertionSort`. -/
def candLE (p q : Address × Nat) : Prop :=
  q.2 < p.2 ∨ (p.2 = q.2 ∧ p.1 ≤ q.1)

instance : DecidableRel candLE := fun p q =>
  inferInstanceAs (Decidable (q.2 < p.2 ∨ (p.2 = q.2 ∧ p.1 ≤ q.1)))

instance : IsTotal (Address × Nat) candLE where
  total p q := by
    rcases Nat.lt_trichotomy p.2 q.2 with h | h | h
    · exact Or.inr (Or.inl h)
    · rcases le_total p.1 q.1 with h1 | h1
      · exact Or.inl (Or.inr ⟨h, h1⟩)
      · exact Or.inr (Or.inr ⟨h.symm, h1⟩)
    · exact Or.inl (Or.inl h)

instance : IsTrans (Address × Nat) candLE where
  trans p q s hpq hqs := by
    rcases hpq with h1 | ⟨h1, h1'⟩
    · rcases hqs with h2 | ⟨h2, _⟩
      · exact Or.inl (h2.trans h1)
      · exact Or.inl (h2 ▸ h1)
    · rcases hqs with h2 | ⟨h2, h2'⟩
      · exact Or.inl (h1 ▸ h2)
      · exact Or.inr ⟨h1.trans h2, h1'.trans h2'⟩

instance : IsAntisymm (Address × Nat) candLE where
  antisymm p q hpq hqp := by
    rcases hpq with h1 | ⟨h1, h1'⟩
    · rcases hqp with h2 | ⟨h2, _⟩
      · exact absurd (h1.trans h2) (lt_irrefl _)
      · exact absurd h1 (h2 ▸ lt_irrefl _)
    · rcases hqp with h2 | ⟨h2, h2'⟩
      · exact absurd h2 (h1 ▸ lt_irrefl _)
      · exact Prod.ext (le_antisymm h1' h2') h1

/-- `fetchActiveBootstapValidators` (lines 311-343): walk the genesis
dynasty trie and keep the validators still present in the current candidate
trie. -/
def fetchActiveBootstapValidators (dc : DynastyContext) : List Address :=
  dc.GenesisDynasty.filter (fun v => decide (v ∈ dc.CandidateTrie))

/-- `DynastyContext.chooseCandidates` (lines 345-374): remove the active
bootstrap validators from the tally, give them zero scores and sort them by
the candidate order (address ascending, as their scores are all zero); sort
the remaining tally entries by the candidate order; return the bootstrap
block followed by the rest. -/
def chooseCandidates (dc : DynastyContext) (votes : List (Address × Nat)) :
    List (Address × Nat) :=
  let ab := fetchActiveBootstapValidators dc
  let bootstrapCandidates := List.insertionSort candLE (ab.map (fun a => (a, 0)))
  let rest :=
    List.insertionSort candLE (votes.filter (fun p => decide (p.1 ∉ ab)))
  bootstrapCandidates ++ rest

/-- `checkActiveBootstrapValidator` (lines 376-396): the validator is in the
genesis dynasty trie and in the current candidate trie. -/
def checkActiveBootstrapValidator (dc : DynastyContext) (v : Address) : Bool :=
  decide (v ∈ dc.GenesisDynasty) && decide (v ∈ dc.CandidateTrie)

/-- Lookup of a delegator's vote, the model of `voteTrie.Get(delegator)`. -/
def voteGet (m : List (Address × Address)) (k : Address) : Option Address :=
  assocGet m k

/-- The delegator loop of `kickout` (lines 413-439): for each snapshot entry
`(c ‖ d)` of the delegate trie, delete the delegate entry and, when the
delegator's vote equals the kicked candidate, delete the vote. -/
def kickLoop (c : Address) :
    List (Address × Address) →
    List (Address × Address) × List (Address × Address) →
    List (Address × Address) × List (Address × Address)
  | [], st => st
  | p :: rest, st =>
    let deleg' := st.1.filter (fun q => decide (q ≠ (c, p.2)))
    let vote' :=
      if voteGet st.2 p.2 = some c then
        st.2.filter (fun q => decide (q.1 ≠ p.2))
      else
        st.2
    kickLoop c rest (deleg', vote')

/-- `kickout` (lines 398-442) on the triple (candidate, delegate, vote):
delete the candidate key (returning unchanged when it is absent, the `Del`
`KEY_NOT_FOUND` early return), then run the delegator loop over the
delegate entries prefixed by the candidate. -/
def kickout (cand : List Address) (deleg vote : List (Address × Address))
    (c : Address) :
    List Address × List (Address × Address) × List (Address × Address) :=
  if c ∈ cand then
    let cand' := cand.filter (fun x => decide (x ≠ c))
    let entries := deleg.filter (fun p => decide (p.1 = c))
    let st := kickLoop c entries (deleg, vote)
    (cand', st.1, st.2)
  else
    (cand, deleg, vote)

/-- `DynastyContext.kickoutCandidate` (lines 444-446). -/
def kickoutCandidate (dc : DynastyContext) (c : Address) : DynastyContext :=
  let st := kickout dc.CandidateTrie dc.DelegateTrie dc.VoteTrie c
  { dc with CandidateTrie := st.1, DelegateTrie := st.2.1, VoteTrie := st.2.2 }

/-- The mint-count survival threshold
`DynastyInterval/BlockInterval/DynastySize/2` (line 474); with the current
constants it evaluates to `1`. -/
def mintThreshold : Int :=
  ((DynastyInterval.tdiv BlockInterval).tdiv (DynastySize : Int)).tdiv 2

/-- The body of the `kickoutDynasty` loop for one validator (lines 465-500):
spare the validator when its mint count for the dynasty is present and at
least the threshold, otherwise protect it when it is an active bootstrap
validator, otherwise kick it. -/
def kickValidatorStep (dynastyID : Int) (dc : DynastyContext) (v : Address) :
    DynastyContext :=
  let spared : Bool :=
    match mintGet dc.MintCntTrie (dynastyID, v) with
    | some cnt => decide (mintThreshold ≤ cnt)
    | none => false
  if spared then dc
  else if checkActiveBootstrapValidator dc v then dc
  else kickoutCandidate dc v

/-- `DynastyContext.kickoutDynasty` (lines 453-503): iterate the current
dynasty trie (snapshot taken before any kick; kicks never modify the
dynasty trie) applying the per-validator decision. -/
def kickoutDynasty (dc : DynastyContext) (dynastyID : Int) : DynastyContext :=
  dc.DynastyTrie.foldl (kickValidatorStep dynastyID) dc

/-- `byteutils.FromInt64`: big-endian two's-complement encoding of a signed
64-bit integer as eight bytes. -/
def int64BE (x : Int) : List Nat :=
  let u := (Int.emod x (2 ^ 64)).toNat
  [u / 2 ^ 56 % 256, u / 2 ^ 48 % 256, u / 2 ^ 40 % 256, u / 2 ^ 32 % 256,
   u / 2 ^ 24 % 256, u / 2 ^ 16 % 256, u / 2 ^ 8 % 256, u % 256]

/-- 32-bit FNV-1a over a byte sequence (`hash/fnv`, `fnv.New32a`). -/
def fnv32a (bytes : List Nat) : Nat :=
  bytes.foldl (fun h b => ((h ^^^ b) * 16777619) % 2 ^ 32) 2166136261

/-- The candidate list computed by one iteration of the election loop: the
kick-out phase (skipped on a genesis base) followed by tally and ranking. -/
def electCandidates (dc : DynastyContext) (i : Int) (baseGenesis : Bool) :
    List (Address × Nat) :=
  let dc1 := if baseGenesis then dc else kickoutDynasty dc i
  chooseCandidates dc1 (tallyVotes dc1)

/-- One iteration of the `electNextDynastyOnBaseDynasty` loop (lines
510-556): kick-out (unless the base is genesis), tally, rank, fail when
fewer than `SafeSize` candidates remain, select the top `DynastySize - 1`
directly, pseudo-randomly select one tail member seeded by
`encodeInt64(nextDynastyID) ‖ accountStateRoot`, then rotate the dynasty
and next-dynasty tries. -/
def electStep (dc : DynastyContext) (i nextDynastyID : Int)
    (baseGenesis : Bool) : Except DposError DynastyContext :=
  let dc1 := if baseGenesis then dc else kickoutDynasty dc i
  let votes := tallyVotes dc1
  let candidates := chooseCandidates dc1 votes
  if candidates.length < SafeSize then
    .error .tooFewCandidates
  else
    let directSelected := DynastySize - 1
    let direct :=
      (candidates.take directSelected).foldl (fun t c => triePut t c.1) []
    let nextDynastyTrie :=
      if directSelected < candidates.length then
        let result :=
          fnv32a (int64BE nextDynastyID ++ dc1.AccountsRoot) %
            (candidates.length - directSelected)
        let offset := result + directSelected
        triePut direct (candidates.getD offset (0, 0)).1
      else
        direct
    .ok { dc1 with
            DynastyTrie := dc1.NextDynastyTrie,
            NextDynastyTrie := nextDynastyTrie }

/-- The election loop with explicit fuel: `electIter nextID g n dc` runs the
iterations `i = nextID - n, …, nextID - 1`. -/
def electIter (nextDynastyID : Int) (baseGenesis : Bool) :
    Nat → DynastyContext → Except DposError DynastyContext
  | 0, dc => .ok dc
  | n + 1, dc =>
    match electStep dc (nextDynastyID - ((n : Int) + 1)) nextDynastyID baseGenesis with
    | .error e => .error e
    | .ok dc' => electIter nextDynastyID baseGenesis n dc'

/-- `DynastyContext.electNextDynastyOnBaseDynasty` (lines 505-558): when the
base is the genesis dynasty the base id is first reset to
`nextDynastyID - 1`, then the loop runs for every id in `[base, next)`. -/
def electNextDynastyOnBaseDynasty (dc : DynastyContext)
    (baseDynastyID nextDynastyID : Int) (baseGenesis : Bool) :
    Except DposError DynastyContext :=
  let base := if baseGenesis then nextDynastyID - 1 else baseDynastyID
  electIter nextDynastyID baseGenesis (nextDynastyID - base).toNat dc

/-- The increasing, gapless enumeration of the integer interval
`[base, next)`. -/
def intRange (base next : Int) : List Int :=
  (List.range (next - base).toNat).map (fun k : Nat => base + (k : Int))

/-- `TraverseDynasty` (lines 738-756): enumerate the dynasty trie in
iteration order (the `Empty` and `KEY_NOT_FOUND` branches both yield the
empty enumeration, so this is the entry list itself). -/
def TraverseDynasty (dynasty : List Address) : List Address :=
  dynasty

/-- `Block.NextDynastyContext` (lines 662-735): clone the six tries, reject
timestamps off the slot grid, run the pending elections, then resolve the
proposer of the slot.  A negative slot offset (possible only for negative
timestamps) makes the Go code index a slice with a negative index, which
panics; the model returns `runtimePanic` there. -/
def Block.NextDynastyContext (b : Block) (elapsedSecond : Int) :
    Except DposError DynastyContext :=
  let context : DynastyContext :=
    { TimeStamp := b.timestamp + elapsedSecond,
      DynastyTrie := b.dynastyTrie,
      NextDynastyTrie := b.nextDynastyTrie,
      DelegateTrie := b.delegateTrie,
      CandidateTrie := b.candidateTrie,
      VoteTrie := b.voteTrie,
      MintCntTrie := b.mintCntTrie,
      Accounts := b.accState,
      AccountsRoot := b.accRoot,
      GenesisDynasty := b.genesisDynasty }
  let baseDynastyID := b.timestamp.tdiv DynastyInterval
  let newDynastyID := (b.timestamp + elapsedSecond).tdiv DynastyInterval
  let offset0 := (b.timestamp + elapsedSecond).tmod DynastyInterval
  if offset0.tmod BlockInterval ≠ 0 then
    .error .notBlockForgeTime
  else
    let offset := (offset0.tdiv BlockInterval).tmod (DynastySize : Int)
    let elected : Except DposError DynastyContext :=
      if baseDynastyID < newDynastyID then
        (if baseDynastyID + 1 < newDynastyID then
          electNextDynastyOnBaseDynasty context baseDynastyID
            (newDynastyID - 1) (decide (baseDynastyID = 0))
        else
          .ok context).bind
          (fun ctx =>
            electNextDynastyOnBaseDynasty ctx (newDynastyID - 1) newDynastyID
              (decide (baseDynastyID = 0)))
      else
        .ok context
    elected.bind
      (fun ctx =>
        let delegatees := TraverseDynasty ctx.DynastyTrie
        if offset < 0 then
          .error .runtimePanic
        else
          .ok { ctx with
                  Offset := offset,
                  Proposer := delegatees.get? offset.toNat })

/-- The accumulating state of the `GenesisDynastyContext` loop. -/
structure GenesisState where
  dynasty : List Address := []
  vote : List (Address × Address) := []
  delegate : List (Address × Address) := []
  candidate : List Address := []

/-- One iteration of the `GenesisDynastyContext` loop (lines 624-646) for
the configured address at index `i`. -/
def genesisStep (i : Nat) (v : Address) (st : GenesisState) : GenesisState :=
  { dynasty := if i < DynastySize then triePut st.dynasty v else st.dynasty,
    vote := assocPut st.vote v v,
    delegate := delegatePut st.delegate (v, v),
    candidate := triePut st.candidate v }

/-- The `GenesisDynastyContext` loop over the configured dynasty list,
carrying the loop index. -/
def genesisLoop : Nat → List Address → GenesisState → GenesisState
  | _, [], st => st
  | i, v :: rest, st => genesisLoop (i + 1) rest (genesisStep i v st)

/-- `GenesisDynastyContext` (lines 599-660): fail when the configured
dynasty list is shorter than `SafeSize`; otherwise seed the tries from the
configuration (the first `DynastySize` entries populate `dynasty`; every
entry self-votes, self-delegates, and becomes a candidate) and clone
`dynasty` into `nextDynasty`.  Address decoding is external and always
succeeds on canonical strings, so it is modelled as the identity. -/
def GenesisDynastyContext (conf : List Address) :
    Except DposError DynastyContext :=
  if conf.length < SafeSize then
    .error .initialDynastyNotEnough
  else
    let st := genesisLoop 0 conf {}
    .ok { TimeStamp := GenesisTimestamp,
          DynastyTrie := st.dynasty,
          NextDynastyTrie := st.dynasty,
          DelegateTrie := st.delegate,
          CandidateTrie := st.candidate,
          VoteTrie := st.vote,
          MintCntTrie := [] }

/-- The survival predicate of the kick-out loop for one validator (lines
468-481): the mint count for the dynasty is present and at least
`mintThreshold`. -/
def minedEnough (dc : DynastyContext) (dyn : Int) (v : Address) : Prop :=
  ∃ cnt, mintGet dc.MintCntTrie (dyn, v) = some cnt ∧ mintThreshold ≤ cnt

/-- Equality of the slices of two contexts that concern one validator `v`:
its candidate membership, its delegate rows and the votes cast for it. -/
def vSliceEq (a b : DynastyContext) (v : Address) : Prop :=
  (v ∈ a.CandidateTrie ↔ v ∈ b.CandidateTrie) ∧
  (∀ d, (v, d) ∈ a.DelegateTrie ↔ (v, d) ∈ b.DelegateTrie) ∧
  (∀ d, (d, v) ∈ a.VoteTrie ↔ (d, v) ∈ b.VoteTrie)

/-- A context with three candidates, no bootstrap validators and a stale
next-dynasty trie, used for the concrete election scenarios. -/
def dcThree : DynastyContext :=
  { CandidateTrie := [1, 2, 3], NextDynastyTrie := [26] }

/-- A context with seven candidates, used to exercise the pseudo-random
tail selection. -/
def dcSeven : DynastyContext :=
  { CandidateTrie := [1, 2, 3, 4, 5, 6, 7],
    NextDynastyTrie := [26] }

/-- A one-validator dynasty whose validator has a zero mint count, is not a
bootstrap validator, and has one backed vote, used for the kick-out
scenario. -/
def dcFate : DynastyContext :=
  { DynastyTrie := [1], CandidateTrie := [1, 2],
    DelegateTrie := [(1, 4)], VoteTrie := [(4, 1)],
    MintCntTrie := [((0, 1), 0)] }

/-- A block at timestamp 0 with a three-member dynasty, used for the slot
resolution scenario. -/
def blkSlot : Block :=
  { timestamp := 0, dynastyTrie := [1, 2, 3] }

/-! ### Basic lemmas about the trie models -/

theorem mem_triePut {t : List Address} {k x : Address} :
    x ∈ triePut t k ↔ x ∈ t ∨ x = k := by
  unfold triePut
  by_cases h : k ∈ t
  · rw [if_pos h]
    constructor
    · exact Or.inl
    · rintro (hx | rfl)
      · exact hx
      · exact h
  · rw [if_neg h]
    simp

theorem nodup_triePut {t : List Address} {k : Address} (h : t.Nodup) :
    (triePut t k).Nodup := by
  unfold triePut
  by_cases hk : k ∈ t
  · rwa [if_pos hk]
  · rw [if_neg hk]
    exact List.Nodup.append h (List.nodup_singleton k)
      (List.disjoint_singleton.mpr hk)

theorem length_triePut (t : List Address) (k : Address) :
    (triePut t k).length = if k ∈ t then t.length else t.length + 1 := by
  unfold triePut
  by_cases hk : k ∈ t
  · rw [if_pos hk, if_pos hk]
  · rw [if_neg hk, if_neg hk]
    simp

theorem mem_foldl_triePut (l : List Address) (t : List Address) (x : Address) :
    x ∈ l.foldl triePut t ↔ x ∈ t ∨ x ∈ l := by
  induction l generalizing t with
  | nil => simp
  | cons a l ih =>
    rw [List.foldl_cons, ih, mem_triePut]
    simp only [List.mem_cons]
    tauto

theorem length_foldl_triePut :
    ∀ (l t : List Address), l.Nodup → (∀ k ∈ l, k ∉ t) →
      (l.foldl triePut t).length = t.length + l.length
  | [], t, _, _ => by simp
  | a :: l, t, hl, ht => by
    rw [List.foldl_cons,
      length_foldl_triePut l (triePut t a) (List.Nodup.of_cons hl) ?_]
    · rw [length_triePut, if_neg (ht a (List.mem_cons_self a l))]
      simp only [List.length_cons]
      omega
    · intro k hk
      rw [mem_triePut]
      rintro (hkt | rfl)
      · exact ht k (List.mem_cons_of_mem a hk) hkt
      · exact (List.nodup_cons.mp hl).1 hk

theorem assocGet_eq_none {β : Type} {m : List (Address × β)} {k : Address} :
    assocGet m k = none ↔ ∀ v, (k, v) ∉ m := by
  unfold assocGet
  induction m with
  | nil => simp
  | cons p m ih =>
    by_cases hp : p.1 = k
    · rw [List.find?_cons_of_pos _ (by simpa using hp)]
      constructor
      · intro h
        exact absurd h (by simp)
      · intro h
        exact absurd (h p.2) (by simp [← hp])
    · rw [List.find?_cons_of_neg _ (by simpa using hp)]
      rw [ih]
      constructor
      · intro h v hv
        rcases List.mem_cons.mp hv with rfl | hv
        · exact hp rfl
        · exact h v hv
      · intro h v hv
        exact h v (List.mem_cons_of_mem p hv)

theorem mem_of_assocGet_eq_some {β : Type} {m : List (Address × β)}
    {k : Address} {v : β} (h : assocGet m k = some v) : (k, v) ∈ m := by
  unfold assocGet at h
  induction m with
  | nil => simp at h
  | cons p m ih =>
    by_cases hp : p.1 = k
    · rw [List.find?_cons_of_pos _ (by simpa using hp)] at h
      simp only [Option.map_some', Option.some.injEq] at h
      subst h
      have hkp : (k, p.2) = p := by
        rw [← hp]
      exact hkp ▸ List.mem_cons_self p m
    · rw [List.find?_cons_of_neg _ (by simpa using hp)] at h
      exact List.mem_cons_of_mem p (ih h)

theorem assocGet_eq_some_of_mem_nodup {β : Type} {m : List (Address × β)}
    {k : Address} {v : β} (hn : (m.map Prod.fst).Nodup) (h : (k, v) ∈ m) :
    assocGet m k = some v := by
  unfold assocGet
  induction m with
  | nil => simp at h
  | cons p m ih =>
    rcases List.mem_cons.mp h with rfl | hm
    · rw [List.find?_cons_of_pos _ (by simp)]
      rfl
    · have hp : p.1 ≠ k := by
        intro hpk
        have : k ∈ m.map Prod.fst := List.mem_map_of_mem Prod.fst hm
        rw [List.map_cons, List.nodup_cons] at hn
        exact hn.1 (hpk ▸ this)
      rw [List.find?_cons_of_neg _ (by simpa using hp)]
      exact ih (by rw [List.map_cons, List.nodup_cons] at hn; exact hn.2) hm

theorem assocGet_put_self {β : Type} (m : List (Address × β)) (k : Address)
    (v : β) : assocGet (assocPut m k v) k = some v := by
  unfold assocGet assocPut
  by_cases h : m.any (fun p => decide (p.1 = k))
  · rw [if_pos h]
    rcases List.any_eq_true.mp h with ⟨p, hp, hpk⟩
    induction m with
    | nil => simp at hp
    | cons q m ih =>
      by_cases hq : q.1 = k
      · rw [List.map_cons, if_pos hq, List.find?_cons_of_pos _ (by simp)]
        rfl
      · rw [List.map_cons, if_neg hq,
          List.find?_cons_of_neg _ (by simpa using hq)]
        rcases List.mem_cons.mp hp with rfl | hp'
        · exact absurd (by simpa using hpk) hq
        · exact ih (List.any_eq_true.mpr ⟨p, hp', hpk⟩) hp'
  · rw [if_neg h]
    have hnone : m.find? (fun p => decide (p.1 = k)) = none := by
      rw [List.find?_eq_none]
      intro p hp hpk
      exact h (List.any_eq_true.mpr ⟨p, hp, hpk⟩)
    rw [List.find?_append, hnone]
    simp

theorem assocGet_put_other {β : Type} {m : List (Address × β)}
    {k k' : Address} {v : β} (h : k' ≠ k) :
    assocGet (assocPut m k v) k' = assocGet m k' := by
  unfold assocGet assocPut
  by_cases hm : m.any (fun p => decide (p.1 = k))
  · rw [if_pos hm]
    clear hm
    induction m with
    | nil => simp
    | cons q m ih =>
      by_cases hq : q.1 = k
      · rw [List.map_cons, if_pos hq,
          List.find?_cons_of_neg _ (by simpa using (h ∘ Eq.symm).mt (by simp)),
          List.find?_cons_of_neg _ (by simpa using hq ▸ (h ∘ Eq.symm).mt (by simp))]
        exact ih
      · rw [List.map_cons, if_neg hq]
        by_cases hqk : q.1 = k'
        · rw [List.find?_cons_of_pos _ (by simpa using hqk),
            List.find?_cons_of_pos _ (by simpa using hqk)]
        · rw [List.find?_cons_of_neg _ (by simpa using hqk),
            List.find?_cons_of_neg _ (by simpa using hqk)]
          exact ih
  · rw [if_neg hm, List.find?_append]
    have : List.find? (fun p => decide (p.1 = k')) [(k, v)] = none := by
      simp [Ne.symm h]
    rw [this]
    cases List.find? (fun p => decide (p.1 = k')) m <;> simp

/-! ### Lemmas about the kick-out engine -/

theorem eq_of_mem_nodup_keys {β : Type} {m : List (Address × β)}
    (hn : (m.map Prod.fst).Nodup) {a b : Address × β}
    (ha : a ∈ m) (hb : b ∈ m) (h : a.1 = b.1) : a = b := by
  induction m with
  | nil => simp at ha
  | cons q m ih =>
    rw [List.map_cons, List.nodup_cons] at hn
    rcases List.mem_cons.mp ha with rfl | ha' <;>
      rcases List.mem_cons.mp hb with rfl | hb'
    · rfl
    · exact absurd (h ▸ List.mem_map_of_mem Prod.fst hb') hn.1
    · exact absurd (h ▸ List.mem_map_of_mem Prod.fst ha') hn.1
    · exact ih hn.2 ha' hb'

theorem mem_kickLoop_deleg (c : Address) :
    ∀ (entries : List (Address × Address))
      (st : List (Address × Address) × List (Address × Address))
      (e : Address × Address),
      e ∈ (kickLoop c entries st).1 ↔
        e ∈ st.1 ∧ ∀ p ∈ entries, e ≠ (c, p.2)
  | [], st, e => by simp [kickLoop]
  | p :: rest, st, e => by
    simp only [kickLoop]
    rw [mem_kickLoop_deleg c rest _ e]
    simp only [List.mem_filter, decide_eq_true_eq, List.mem_cons]
    constructor
    · rintro ⟨⟨he, hne⟩, hrest⟩
      refine ⟨he, fun q hq => ?_⟩
      rcases hq with rfl | hq
      · exact hne
      · exact hrest q hq
    · rintro ⟨he, hall⟩
      exact ⟨⟨he, hall p (Or.inl rfl)⟩, fun q hq => hall q (Or.inr hq)⟩

theorem kickLoop_vote_sublist (c : Address) :
    ∀ (entries : List (Address × Address))
      (st : List (Address × Address) × List (Address × Address)),
      (kickLoop c entries st).2.Sublist st.2
  | [], st => by simp [kickLoop]
  | p :: rest, st => by
    simp only [kickLoop]
    refine (kickLoop_vote_sublist c rest _).trans ?_
    by_cases hv : voteGet st.2 p.2 = some c
    · rw [if_pos hv]
      exact List.filter_sublist st.2
    · rw [if_neg hv]

theorem mem_kickLoop_vote (c : Address) :
    ∀ (entries : List (Address × Address))
      (st : List (Address × Address) × List (Address × Address))
      (r : Address × Address),
      (st.2.map Prod.fst).Nodup →
      (r ∈ (kickLoop c entries st).2 ↔
        r ∈ st.2 ∧ ¬(r.2 = c ∧ ∃ p ∈ entries, p.2 = r.1))
  | [], st, r, _ => by simp [kickLoop]
  | p :: rest, st, r, hn => by
    simp only [kickLoop]
    by_cases hv : voteGet st.2 p.2 = some c
    · rw [if_pos hv]
      rw [mem_kickLoop_vote c rest _ r
        (((List.filter_sublist st.2).map Prod.fst).nodup hn)]
      have hmem : (p.2, c) ∈ st.2 := mem_of_assocGet_eq_some hv
      simp only [List.mem_filter, decide_eq_true_eq, List.mem_cons]
      constructor
      · rintro ⟨⟨hr, hne⟩, hnr⟩
        refine ⟨hr, ?_⟩
        rintro ⟨hc2, q, hq, hq2⟩
        rcases hq with rfl | hq
        · exact hne hq2.symm
        · exact hnr ⟨hc2, q, hq, hq2⟩
      · rintro ⟨hr, hnr⟩
        have hne : r.1 ≠ p.2 := by
          intro hr1
          have : r = (p.2, c) :=
            eq_of_mem_nodup_keys hn hr hmem (by simpa using hr1)
          exact hnr ⟨by rw [this], p, Or.inl rfl, by rw [this]⟩
        refine ⟨⟨hr, hne⟩, ?_⟩
        rintro ⟨hc2, q, hq, hq2⟩
        exact hnr ⟨hc2, q, Or.inr hq, hq2⟩
    · rw [if_neg hv]
      rw [mem_kickLoop_vote c rest
        (st.1.filter (fun q => decide (q ≠ (c, p.2))), st.2) r hn]
      simp only [List.mem_cons]
      constructor
      · rintro ⟨hr, hnr⟩
        refine ⟨hr, ?_⟩
        rintro ⟨hc2, q, hq, hq2⟩
        rcases hq with rfl | hq
        · have : r = (q.2, c) := by
            rw [hq2, ← hc2]
          exact hv (assocGet_eq_some_of_mem_nodup hn (hq2 ▸ this ▸ hr))
        · exact hnr ⟨hc2, q, hq, hq2⟩
      · rintro ⟨hr, hnr⟩
        refine ⟨hr, ?_⟩
        rintro ⟨hc2, q, hq, hq2⟩
        exact hnr ⟨hc2, q, Or.inr hq, hq2⟩

theorem kickout_cand_mem {cand : List Address}
    {deleg vote : List (Address × Address)} {c : Address} (hc : c ∈ cand)
    (x : Address) :
    x ∈ (kickout cand deleg vote c).1 ↔ x ∈ cand ∧ x ≠ c := by
  simp only [kickout, if_pos hc]
  simp [List.mem_filter]

theorem kickout_deleg_mem {cand : List Address}
    {deleg vote : List (Address × Address)} {c : Address} (hc : c ∈ cand)
    (e : Address × Address) :
    e ∈ (kickout cand deleg vote c).2.1 ↔ e ∈ deleg ∧ e.1 ≠ c := by
  simp only [kickout, if_pos hc]
  rw [mem_kickLoop_deleg c _ _ e]
  constructor
  · rintro ⟨he, hall⟩
    refine ⟨he, fun h1 => ?_⟩
    have heq : e = (c, e.2) := by
      rw [← h1]
    exact hall e (List.mem_filter.mpr ⟨he, by simpa using h1⟩) heq
  · rintro ⟨he, h1⟩
    refine ⟨he, fun p _ heq => h1 ?_⟩
    rw [heq]

theorem kickout_vote_mem {cand : List Address}
    {deleg vote : List (Address × Address)} {c : Address} (hc : c ∈ cand)
    (hvn : (vote.map Prod.fst).Nodup) (r : Address × Address) :
    r ∈ (kickout cand deleg vote c).2.2 ↔
      r ∈ vote ∧ ¬(r.2 = c ∧ (c, r.1) ∈ deleg) := by
  simp only [kickout, if_pos hc]
  rw [mem_kickLoop_vote c _ _ r hvn]
  constructor
  · rintro ⟨hr, hnr⟩
    refine ⟨hr, ?_⟩
    rintro ⟨hc2, hd⟩
    exact hnr ⟨hc2, (c, r.1), List.mem_filter.mpr ⟨hd, by simp⟩, rfl⟩
  · rintro ⟨hr, hnr⟩
    refine ⟨hr, ?_⟩
    rintro ⟨hc2, p, hp, hp2⟩
    rcases List.mem_filter.mp hp with ⟨hpd, hp1⟩
    have : p = (c, r.1) := by
      have h1 : p.1 = c := by simpa using hp1
      rw [← h1, ← hp2]
    exact hnr ⟨hc2, this ▸ hpd⟩

theorem kickout_absent {cand : List Address}
    {deleg vote : List (Address × Address)} {c : Address} (hc : c ∉ cand) :
    kickout cand deleg vote c = (cand, deleg, vote) := by
  simp only [kickout, if_neg hc]

theorem kickout_vote_sublist (cand : List Address)
    (deleg vote : List (Address × Address)) (c : Address) :
    (kickout cand deleg vote c).2.2.Sublist vote := by
  by_cases hc : c ∈ cand
  · simp only [kickout, if_pos hc]
    exact kickLoop_vote_sublist c _ _
  · rw [kickout_absent hc]

/-! ### Lemmas about the vote tally -/

theorem keys_assocPut {β : Type} (m : List (Address × β)) (k : Address)
    (v : β) :
    (assocPut m k v).map Prod.fst =
      if k ∈ m.map Prod.fst then m.map Prod.fst else m.map Prod.fst ++ [k] := by
  unfold assocPut
  by_cases h : m.any (fun p => decide (p.1 = k))
  · rcases List.any_eq_true.mp h with ⟨p, hp, hpk⟩
    rw [if_pos h, if_pos (by
      exact (by simpa using hpk : p.1 = k) ▸ List.mem_map_of_mem Prod.fst hp)]
    rw [List.map_map]
    refine List.map_congr_left ?_
    intro q _
    by_cases hq : q.1 = k
    · simp [hq]
    · simp [hq]
  · have hk : k ∉ m.map Prod.fst := by
      intro hmem
      rcases List.mem_map.mp hmem with ⟨p, hp, hpk⟩
      exact h (List.any_eq_true.mpr ⟨p, hp, by simpa using hpk⟩)
    rw [if_neg h, if_neg hk]
    simp

theorem nodup_keys_assocPut {β : Type} {m : List (Address × β)}
    (hn : (m.map Prod.fst).Nodup) (k : Address) (v : β) :
    ((assocPut m k v).map Prod.fst).Nodup := by
  rw [keys_assocPut]
  by_cases h : k ∈ m.map Prod.fst
  · rwa [if_pos h]
  · rw [if_neg h]
    exact List.Nodup.append hn (List.nodup_singleton k)
      (List.disjoint_singleton.mpr h)

theorem nodup_keys_tallyAdd {dc : DynastyContext} {d : Address}
    {m : List (Address × Nat)} (hn : (m.map Prod.fst).Nodup)
    (p : Address × Address) : ((tallyAdd dc d m p).map Prod.fst).Nodup :=
  nodup_keys_assocPut hn d _

theorem nodup_keys_tallyAdd_fold {dc : DynastyContext} {d : Address} :
    ∀ (ds : List (Address × Address)) (m : List (Address × Nat)),
      (m.map Prod.fst).Nodup →
      (((ds.foldl (tallyAdd dc d) m)).map Prod.fst).Nodup
  | [], _, hn => hn
  | p :: ds, m, hn =>
    nodup_keys_tallyAdd_fold ds (tallyAdd dc d m p) (nodup_keys_tallyAdd hn p)

theorem nodup_keys_tallyStep {dc : DynastyContext} {d : Address}
    {m : List (Address × Nat)} (hn : (m.map Prod.fst).Nodup) :
    ((tallyStep dc m d).map Prod.fst).Nodup := by
  unfold tallyStep
  by_cases h : (dc.DelegateTrie.filter (fun p => decide (p.1 = d))).isEmpty
  · rw [if_pos h]
    exact nodup_keys_assocPut hn d 0
  · rw [if_neg h]
    exact nodup_keys_tallyAdd_fold _ m hn

theorem nodup_keys_tally_fold {dc : DynastyContext} :
    ∀ (cs : List Address) (m : List (Address × Nat)),
      (m.map Prod.fst).Nodup →
      ((cs.foldl (tallyStep dc) m).map Prod.fst).Nodup
  | [], _, hn => hn
  | c :: cs, m, hn =>
    nodup_keys_tally_fold cs (tallyStep dc m c) (nodup_keys_tallyStep hn)

theorem tallyVotes_keys_nodup (dc : DynastyContext) :
    ((tallyVotes dc).map Prod.fst).Nodup :=
  nodup_keys_tally_fold dc.CandidateTrie [] (by simp)

theorem tallyAdd_get_other {dc : DynastyContext} {d c : Address}
    (h : c ≠ d) (m : List (Address × Nat)) (p : Address × Address) :
    assocGet (tallyAdd dc d m p) c = assocGet m c :=
  assocGet_put_other h

theorem tallyAdd_fold_get_other {dc : DynastyContext} {d c : Address}
    (h : c ≠ d) :
    ∀ (ds : List (Address × Address)) (m : List (Address × Nat)),
      assocGet (ds.foldl (tallyAdd dc d) m) c = assocGet m c
  | [], _ => rfl
  | p :: ds, m => by
    rw [List.foldl_cons, tallyAdd_fold_get_other h ds _,
      tallyAdd_get_other h]

theorem tallyStep_get_other {dc : DynastyContext} {d c : Address}
    (h : c ≠ d) (m : List (Address × Nat)) :
    assocGet (tallyStep dc m d) c = assocGet m c := by
  unfold tallyStep
  by_cases hd : (dc.DelegateTrie.filter (fun p => decide (p.1 = d))).isEmpty
  · rw [if_pos hd]
    exact assocGet_put_other h
  · rw [if_neg hd]
    exact tallyAdd_fold_get_other h _ m

theorem tallyAdd_fold_get_self {dc : DynastyContext} {c : Address} :
    ∀ (ds : List (Address × Address)) (m : List (Address × Nat)) (s : Nat),
      (assocGet m c).getD 0 = s → ds ≠ [] →
      assocGet (ds.foldl (tallyAdd dc c) m) c =
        some (s + (ds.map (fun p => dc.Accounts p.2)).sum)
  | [], _, _, _, hne => absurd rfl hne
  | p :: ds, m, s, hs, _ => by
    rw [List.foldl_cons]
    rcases List.eq_nil_or_concat ds with rfl | _
    · show assocGet (tallyAdd dc c m p) c = _
      unfold tallyAdd
      rw [hs, assocGet_put_self]
      simp
    · rcases hds : ds with _ | ⟨q, ds2⟩
      · show assocGet (tallyAdd dc c m p) c = _
        unfold tallyAdd
        rw [hs, assocGet_put_self]
        simp
      · rw [tallyAdd_fold_get_self (q :: ds2) (tallyAdd dc c m p)
          (s + dc.Accounts p.2) ?_ (by simp)]
        · simp only [List.map_cons, List.sum_cons]
          rw [Nat.add_assoc]
        · show ((assocGet (tallyAdd dc c m p) c).getD 0) = _
          unfold tallyAdd
          rw [hs, assocGet_put_self]
          rfl

theorem tallyStep_get_self {dc : DynastyContext} {c : Address}
    {m : List (Address × Nat)} (hm : assocGet m c = none) :
    assocGet (tallyStep dc m c) c =
      some (((dc.DelegateTrie.filter (fun p => decide (p.1 = c))).map
        (fun p => dc.Accounts p.2)).sum) := by
  unfold tallyStep
  by_cases hd : (dc.DelegateTrie.filter (fun p => decide (p.1 = c))).isEmpty
  · rw [if_pos hd, List.isEmpty_iff.mp hd, assocGet_put_self]
    simp
  · rw [if_neg hd,
      tallyAdd_fold_get_self _ m 0 (by rw [hm]; rfl)
        (by simpa [List.isEmpty_iff] using hd)]
    simp

theorem tally_fold_get {dc : DynastyContext} :
    ∀ (cs : List Address) (m : List (Address × Nat)) (c : Address),
      c ∈ cs → cs.Nodup → assocGet m c = none →
      assocGet (cs.foldl (tallyStep dc) m) c =
        some (((dc.DelegateTrie.filter (fun p => decide (p.1 = c))).map
          (fun p => dc.Accounts p.2)).sum)
  | [], _, c, hc, _, _ => absurd hc (by simp)
  | c' :: cs, m, c, hc, hnd, hm => by
    rw [List.foldl_cons]
    by_cases hcc : c = c'
    · subst hcc
    
      have hout : c ∉ cs := (List.nodup_cons.mp hnd).1
      have : ∀ (l : List Address) (m2 : List (Address × Nat)), c ∉ l →
          assocGet (l.foldl (tallyStep dc) m2) c = assocGet m2 c := by
        intro l
        induction l with
        | nil => intro m2 _; rfl
        | cons x l ih =>
          intro m2 hx
          rw [List.foldl_cons, ih _ (fun h => hx (List.mem_cons_of_mem x h)),
            tallyStep_get_other
              (fun h => hx (by rw [h]; exact List.mem_cons_self x l)) m2]
      rw [this cs _ hout, tallyStep_get_self hm]
    · rcases List.mem_cons.mp hc with rfl | hc'
      · exact absurd rfl hcc
      · exact tally_fold_get cs (tallyStep dc m c') c hc'
          (List.Nodup.of_cons hnd)
          (by rw [tallyStep_get_other hcc m]; exact hm)

/-! ### Lemmas about candidate ranking -/

theorem chooseCandidates_eq_of_perm (dc : DynastyContext)
    {l₁ l₂ : List (Address × Nat)} (h : l₁.Perm l₂) :
    chooseCandidates dc l₁ = chooseCandidates dc l₂ := by
  unfold chooseCandidates
  refine congrArg _ ?_
  refine List.eq_of_perm_of_sorted ?_
    (List.sorted_insertionSort candLE _) (List.sorted_insertionSort candLE _)
  exact (List.perm_insertionSort candLE _).trans
    ((h.filter _).trans (List.perm_insertionSort candLE _).symm)

theorem chooseCandidates_keys_nodup (dc : DynastyContext)
    (votes : List (Address × Nat)) (hg : dc.GenesisDynasty.Nodup)
    (hv : (votes.map Prod.fst).Nodup) :
    ((chooseCandidates dc votes).map Prod.fst).Nodup := by
  unfold chooseCandidates
  rw [List.map_append]
  have hab : (fetchActiveBootstapValidators dc).Nodup :=
    List.Nodup.filter _ hg
  have hbsk :
      ((List.insertionSort candLE
          ((fetchActiveBootstapValidators dc).map (fun a => (a, 0)))).map
        Prod.fst).Perm (fetchActiveBootstapValidators dc) := by
    refine ((List.perm_insertionSort candLE _).map Prod.fst).trans ?_
    rw [List.map_map,
      show (Prod.fst ∘ fun a : Address => ((a, 0) : Address × Nat)) = id from
        rfl,
      List.map_id]
  have hrk :
      ((List.insertionSort candLE
          (votes.filter
            (fun p => decide (p.1 ∉ fetchActiveBootstapValidators dc)))).map
        Prod.fst).Perm
        ((votes.filter
            (fun p => decide (p.1 ∉ fetchActiveBootstapValidators dc))).map
          Prod.fst) :=
    (List.perm_insertionSort candLE _).map Prod.fst
  refine List.Nodup.append (hbsk.nodup_iff.mpr hab)
    (hrk.nodup_iff.mpr
      (((List.filter_sublist votes).map Prod.fst).nodup hv)) ?_
  intro x hx1 hx2
  have hx1' : x ∈ fetchActiveBootstapValidators dc := hbsk.subset hx1
  have hx2' := hrk.subset hx2
  rcases List.mem_map.mp hx2' with ⟨p, hp, rfl⟩
  rcases List.mem_filter.mp hp with ⟨_, hpn⟩
  have hpn2 : p.1 ∉ fetchActiveBootstapValidators dc := by simpa using hpn
  exact hpn2 hx1'

/-- C7: for every tally map, `chooseCandidates` returns the active bootstrap
validators (scores zeroed, removed from the tally, sorted ascending by
canonical address — the candidate order `candLE` restricted to zero scores)
followed by the remaining tally entries sorted by descending score with ties
broken by ascending address (`candLE`); the output is determined by the
tally contents alone, independent of the map iteration order. -/
theorem chooseCandidates_ranking (dc : DynastyContext)
    (l₁ l₂ : List (Address × Nat)) (h : l₁.Perm l₂) :
    chooseCandidates dc l₁ = chooseCandidates dc l₂ ∧
    ∃ bs rest, chooseCandidates dc l₁ = bs ++ rest ∧
      bs.Sorted candLE ∧ (∀ p ∈ bs, p.2 = 0) ∧
      (bs.map Prod.fst).Perm (fetchActiveBootstapValidators dc) ∧
      rest.Sorted candLE ∧
      rest.Perm (l₁.filter
        (fun p => decide (p.1 ∉ fetchActiveBootstapValidators dc))) := by
  refine ⟨chooseCandidates_eq_of_perm dc h, ?_⟩
  refine ⟨List.insertionSort candLE
      ((fetchActiveBootstapValidators dc).map (fun a => (a, 0))),
    List.insertionSort candLE
      (l₁.filter (fun p => decide (p.1 ∉ fetchActiveBootstapValidators dc))),
    rfl, List.sorted_insertionSort candLE _, ?_, ?_,
    List.sorted_insertionSort candLE _, List.perm_insertionSort candLE _⟩
  · intro p hp
    have := (List.perm_insertionSort candLE _).subset hp
    rcases List.mem_map.mp this with ⟨a, _, rfl⟩
    rfl
  · refine ((List.perm_insertionSort candLE _).map Prod.fst).trans ?_
    rw [List.map_map,
      show (Prod.fst ∘ fun a : Address => ((a, 0) : Address × Nat)) = id from
        rfl,
      List.map_id]

/-- Witness for C7 at a concrete two-entry tally and its transposition. -/
theorem chooseCandidates_ranking_witness :
    chooseCandidates {} [(1, 1), (2, 2)]
        = chooseCandidates {} [(2, 2), (1, 1)] ∧
    ∃ bs rest, chooseCandidates {} [(1, 1), (2, 2)] = bs ++ rest ∧
      bs.Sorted candLE ∧ (∀ p ∈ bs, p.2 = 0) ∧
      (bs.map Prod.fst).Perm (fetchActiveBootstapValidators {}) ∧
      rest.Sorted candLE ∧
      rest.Perm ([(1, 1), (2, 2)].filter
        (fun p => decide (p.1 ∉ fetchActiveBootstapValidators {}))) :=
  chooseCandidates_ranking {} [(1, 1), (2, 2)] [(2, 2), (1, 1)]
    (by decide)

/-! ### C9, C10, C6 -/

/-- C9: `tallyVotes` yields an entry for every key of the candidate trie;
a candidate with no delegations scores 0 (the empty-prefix iterator error is
converted to a zero score, not a failure — here the empty filtered range),
and otherwise the score is the sum of the delegators' account balances. -/
theorem tallyVotes_scores (dc : DynastyContext) (c : Address)
    (hnd : dc.CandidateTrie.Nodup) (hc : c ∈ dc.CandidateTrie) :
    assocGet (tallyVotes dc) c =
      some (((dc.DelegateTrie.filter (fun p => decide (p.1 = c))).map
        (fun p => dc.Accounts p.2)).sum) :=
  tally_fold_get dc.CandidateTrie [] c hc hnd rfl

/-- Concrete witness for C9: candidate `a` has two delegators with balances
5 and 7, candidate `b` has one delegator with balance 5. -/
theorem tallyVotes_scores_witness :
    assocGet (tallyVotes
      { CandidateTrie := [1, 2],
        DelegateTrie := [(1, 11), (1, 12), (2, 11)],
        Accounts := fun d => if d = 11 then 5 else 7 }) 1 =
      some (((List.filter (fun p => decide (p.1 = 1))
          [(1, 11), (1, 12), (2, 11)]).map
        (fun p => if p.2 = 11 then 5 else 7)).sum) :=
  tallyVotes_scores
    { CandidateTrie := [1, 2],
      DelegateTrie := [(1, 11), (1, 12), (2, 11)],
      Accounts := fun d => if d = 11 then 5 else 7 }
    1 (by decide) (by decide)

/-- C10: kicking an address that is not a key of the candidate trie returns
success immediately (the `Del` reports `KEY_NOT_FOUND`, so the delegate trie
is never iterated) and leaves the candidate, delegate and vote tries
unchanged. -/
theorem kickout_absent_frame (cand : List Address)
    (deleg vote : List (Address × Address)) (c : Address) (hc : c ∉ cand) :
    kickout cand deleg vote c = (cand, deleg, vote) :=
  kickout_absent hc

/-- Witness for C10: kicking the absent candidate `z`. -/
theorem kickout_absent_frame_witness :
    kickout [1] [(2, 4)] [(4, 2)] 26
      = ([1], [(2, 4)], [(4, 2)]) :=
  kickout_absent_frame [1] [(2, 4)] [(4, 2)] 26 (by decide)

/-- C6 counterexample: `c` is a candidate, the delegator `d` votes for `c`
but holds no delegate entry `(c ‖ d)`; `kickout` returns success yet the
vote entry with value `c` survives, because votes are only deleted while
walking the delegate entries prefixed by `c`. -/
theorem kickout_vote_counterexample :
    3 ∈ ([3] : List Address) ∧
    (4, 3) ∈ (kickout [3] [] [(4, 3)] 3).2.2 := by
  decide

/-- C6 amended: after `kickout(c)` for a candidate `c` present in the
candidate trie, no delegate key with prefix `c` remains and `c` is no
longer a candidate; provided additionally that every vote for `c` is backed
by a delegate entry `(c ‖ d)` (spec invariant 2), no vote with value `c`
remains. -/
theorem kickout_postconditions (cand : List Address)
    (deleg vote : List (Address × Address)) (c : Address)
    (hc : c ∈ cand) (hvn : (vote.map Prod.fst).Nodup)
    (hback : ∀ d, (d, c) ∈ vote → (c, d) ∈ deleg) :
    c ∉ (kickout cand deleg vote c).1 ∧
    (∀ d, (c, d) ∉ (kickout cand deleg vote c).2.1) ∧
    (∀ d, (d, c) ∉ (kickout cand deleg vote c).2.2) := by
  refine ⟨?_, ?_, ?_⟩
  · rw [kickout_cand_mem hc]
    simp
  · intro d h
    rw [kickout_deleg_mem hc] at h
    exact h.2 rfl
  · intro d h
    rw [kickout_vote_mem hc hvn] at h
    exact h.2 ⟨rfl, hback d h.1⟩

/-- Witness for the amended C6 on a one-candidate state whose single vote
for `c` is backed by the delegate entry `(c ‖ d)`. -/
theorem kickout_postconditions_witness :
    3 ∉ (kickout [3] [(3, 4)] [(4, 3)] 3).1 ∧
    (∀ d, (3, d) ∉ (kickout [3] [(3, 4)] [(4, 3)] 3).2.1) ∧
    (∀ d, (d, 3) ∉ (kickout [3] [(3, 4)] [(4, 3)] 3).2.2) :=
  kickout_postconditions [3] [(3, 4)] [(4, 3)] 3
    (by decide) (by decide)
    (by
      intro d hd
      simp only [List.mem_singleton, Prod.mk.injEq] at hd
      rw [hd.1]
      decide)

/-! ### Lemmas about the per-dynasty kick-out -/

theorem vSliceEq_refl (a : DynastyContext) (v : Address) : vSliceEq a a v :=
  ⟨Iff.rfl, fun _ => Iff.rfl, fun _ => Iff.rfl⟩

theorem vSliceEq_trans {a b c : DynastyContext} {v : Address}
    (h1 : vSliceEq a b v) (h2 : vSliceEq b c v) : vSliceEq a c v :=
  ⟨h1.1.trans h2.1, fun d => (h1.2.1 d).trans (h2.2.1 d),
   fun d => (h1.2.2 d).trans (h2.2.2 d)⟩

theorem kickValidatorStep_cases (i : Int) (dc : DynastyContext)
    (w : Address) :
    kickValidatorStep i dc w = dc ∨
    kickValidatorStep i dc w = kickoutCandidate dc w := by
  simp only [kickValidatorStep]
  split
  · exact Or.inl rfl
  · split
    · exact Or.inl rfl
    · exact Or.inr rfl

theorem kickoutCandidate_MintCnt (dc : DynastyContext) (c : Address) :
    (kickoutCandidate dc c).MintCntTrie = dc.MintCntTrie := rfl

theorem kickoutCandidate_Genesis (dc : DynastyContext) (c : Address) :
    (kickoutCandidate dc c).GenesisDynasty = dc.GenesisDynasty := rfl

theorem kickoutCandidate_Dynasty (dc : DynastyContext) (c : Address) :
    (kickoutCandidate dc c).DynastyTrie = dc.DynastyTrie := rfl

theorem kickValidatorStep_static (i : Int) (dc : DynastyContext)
    (w : Address) :
    (kickValidatorStep i dc w).MintCntTrie = dc.MintCntTrie ∧
    (kickValidatorStep i dc w).GenesisDynasty = dc.GenesisDynasty ∧
    (kickValidatorStep i dc w).DynastyTrie = dc.DynastyTrie := by
  rcases kickValidatorStep_cases i dc w with h | h <;> rw [h]
  · exact ⟨rfl, rfl, rfl⟩
  · exact ⟨rfl, rfl, rfl⟩

theorem kickFold_static (i : Int) :
    ∀ (l : List Address) (dc : DynastyContext),
      (l.foldl (kickValidatorStep i) dc).MintCntTrie = dc.MintCntTrie ∧
      (l.foldl (kickValidatorStep i) dc).GenesisDynasty = dc.GenesisDynasty ∧
      (l.foldl (kickValidatorStep i) dc).DynastyTrie = dc.DynastyTrie
  | [], _ => ⟨rfl, rfl, rfl⟩
  | w :: l, dc => by
    rw [List.foldl_cons]
    rcases kickFold_static i l (kickValidatorStep i dc w) with ⟨h1, h2, h3⟩
    rcases kickValidatorStep_static i dc w with ⟨g1, g2, g3⟩
    exact ⟨h1.trans g1, h2.trans g2, h3.trans g3⟩

theorem kickoutCandidate_vote_nodup {dc : DynastyContext} (c : Address)
    (hvn : (dc.VoteTrie.map Prod.fst).Nodup) :
    ((kickoutCandidate dc c).VoteTrie.map Prod.fst).Nodup :=
  ((kickout_vote_sublist dc.CandidateTrie dc.DelegateTrie dc.VoteTrie c).map
    Prod.fst).nodup hvn

theorem kickValidatorStep_vote_nodup (i : Int) {dc : DynastyContext}
    (w : Address) (hvn : (dc.VoteTrie.map Prod.fst).Nodup) :
    ((kickValidatorStep i dc w).VoteTrie.map Prod.fst).Nodup := by
  rcases kickValidatorStep_cases i dc w with h | h <;> rw [h]
  · exact hvn
  · exact kickoutCandidate_vote_nodup w hvn

theorem kickoutCandidate_slice_other {dc : DynastyContext} {w v : Address}
    (hne : v ≠ w) (hvn : (dc.VoteTrie.map Prod.fst).Nodup) :
    vSliceEq (kickoutCandidate dc w) dc v := by
  by_cases hw : w ∈ dc.CandidateTrie
  · refine ⟨?_, ?_, ?_⟩
    · show v ∈ (kickout dc.CandidateTrie dc.DelegateTrie dc.VoteTrie w).1 ↔ _
      rw [kickout_cand_mem hw]
      exact ⟨fun h => h.1, fun h => ⟨h, hne⟩⟩
    · intro d
      show (v, d) ∈ (kickout _ _ _ w).2.1 ↔ _
      rw [kickout_deleg_mem hw]
      exact ⟨fun h => h.1, fun h => ⟨h, by simpa using hne⟩⟩
    · intro d
      show (d, v) ∈ (kickout _ _ _ w).2.2 ↔ _
      rw [kickout_vote_mem hw hvn]
      refine ⟨fun h => h.1, fun h => ⟨h, ?_⟩⟩
      rintro ⟨hv2, _⟩
      exact hne (by simpa using hv2)
  · have h := @kickout_absent dc.CandidateTrie dc.DelegateTrie dc.VoteTrie w hw
    refine ⟨?_, fun d => ?_, fun d => ?_⟩
    · show v ∈ (kickout _ _ _ w).1 ↔ _
      rw [h]
    · show (v, d) ∈ (kickout _ _ _ w).2.1 ↔ _
      rw [h]
    · show (d, v) ∈ (kickout _ _ _ w).2.2 ↔ _
      rw [h]

theorem kickValidatorStep_slice_other (i : Int) {dc : DynastyContext}
    {w v : Address} (hne : v ≠ w)
    (hvn : (dc.VoteTrie.map Prod.fst).Nodup) :
    vSliceEq (kickValidatorStep i dc w) dc v := by
  rcases kickValidatorStep_cases i dc w with h | h <;> rw [h]
  · exact vSliceEq_refl dc v
  · exact kickoutCandidate_slice_other hne hvn

theorem kickFold_slice_other (i : Int) {v : Address} :
    ∀ (l : List Address) (dc : DynastyContext), v ∉ l →
      (dc.VoteTrie.map Prod.fst).Nodup →
      vSliceEq (l.foldl (kickValidatorStep i) dc) dc v ∧
      (((l.foldl (kickValidatorStep i) dc).VoteTrie.map Prod.fst).Nodup)
  | [], dc, _, hvn => ⟨vSliceEq_refl dc v, hvn⟩
  | w :: l, dc, hv, hvn => by
    rw [List.foldl_cons]
    have hne : v ≠ w := fun h => hv (h ▸ List.mem_cons_self w l)
    have hvn2 := kickValidatorStep_vote_nodup i w hvn
    rcases kickFold_slice_other i l (kickValidatorStep i dc w)
      (fun h => hv (List.mem_cons_of_mem w h)) hvn2 with ⟨hs, hn⟩
    exact ⟨vSliceEq_trans hs (kickValidatorStep_slice_other i hne hvn), hn⟩

theorem kickoutCandidate_slice_self {a b : DynastyContext} {v : Address}
    (hs : vSliceEq a b v) (hna : (a.VoteTrie.map Prod.fst).Nodup)
    (hnb : (b.VoteTrie.map Prod.fst).Nodup) :
    vSliceEq (kickoutCandidate a v) (kickoutCandidate b v) v := by
  by_cases hv : v ∈ a.CandidateTrie
  · have hvb : v ∈ b.CandidateTrie := hs.1.mp hv
    refine ⟨?_, fun d => ?_, fun d => ?_⟩
    · show v ∈ (kickout _ _ _ v).1 ↔ v ∈ (kickout _ _ _ v).1
      rw [kickout_cand_mem hv, kickout_cand_mem hvb]
      simp
    · show (v, d) ∈ (kickout _ _ _ v).2.1 ↔ (v, d) ∈ (kickout _ _ _ v).2.1
      rw [kickout_deleg_mem hv, kickout_deleg_mem hvb]
      simp
    · show (d, v) ∈ (kickout _ _ _ v).2.2 ↔ (d, v) ∈ (kickout _ _ _ v).2.2
      rw [kickout_vote_mem hv hna, kickout_vote_mem hvb hnb]
      rw [hs.2.2 d]
      constructor
      · rintro ⟨h1, h2⟩
        refine ⟨h1, ?_⟩
        rintro ⟨hc, hd⟩
        exact h2 ⟨hc, (hs.2.1 d).mpr hd⟩
      · rintro ⟨h1, h2⟩
        refine ⟨h1, ?_⟩
        rintro ⟨hc, hd⟩
        exact h2 ⟨hc, (hs.2.1 d).mp hd⟩
  · have hvb : v ∉ b.CandidateTrie := fun h => hv (hs.1.mpr h)
    have ha := @kickout_absent a.CandidateTrie a.DelegateTrie a.VoteTrie v hv
    have hb := @kickout_absent b.CandidateTrie b.DelegateTrie b.VoteTrie v hvb
    refine ⟨?_, fun d => ?_, fun d => ?_⟩
    · show v ∈ (kickout _ _ _ v).1 ↔ v ∈ (kickout _ _ _ v).1
      rw [ha, hb]
      exact hs.1
    · show (v, d) ∈ (kickout _ _ _ v).2.1 ↔ (v, d) ∈ (kickout _ _ _ v).2.1
      rw [ha, hb]
      exact hs.2.1 d
    · show (d, v) ∈ (kickout _ _ _ v).2.2 ↔ (d, v) ∈ (kickout _ _ _ v).2.2
      rw [ha, hb]
      exact hs.2.2 d

theorem spared_iff (dc : DynastyContext) (dyn : Int) (v : Address) :
    ((match mintGet dc.MintCntTrie (dyn, v) with
      | some cnt => decide (mintThreshold ≤ cnt)
      | none => false) = true) ↔ minedEnough dc dyn v := by
  cases h : mintGet dc.MintCntTrie (dyn, v) with
  | none => simp [minedEnough, h]
  | some cnt => simp [minedEnough, h]

theorem kickValidatorStep_self_eq (i : Int) (dc : DynastyContext)
    (v : Address) :
    (minedEnough dc i v → kickValidatorStep i dc v = dc) ∧
    (¬ minedEnough dc i v → checkActiveBootstrapValidator dc v = true →
      kickValidatorStep i dc v = dc) ∧
    (¬ minedEnough dc i v → checkActiveBootstrapValidator dc v = false →
      kickValidatorStep i dc v = kickoutCandidate dc v) := by
  refine ⟨?_, ?_, ?_⟩
  · intro hm
    simp only [kickValidatorStep]
    rw [if_pos ((spared_iff dc i v).mpr hm)]
  · intro hm hb
    simp only [kickValidatorStep]
    rw [if_neg (fun hsp => hm ((spared_iff dc i v).mp hsp)), if_pos hb]
  · intro hm hb
    simp only [kickValidatorStep]
    rw [if_neg (fun hsp => hm ((spared_iff dc i v).mp hsp)),
      if_neg (by simp [hb])]

theorem minedEnough_congr {a b : DynastyContext}
    (h : a.MintCntTrie = b.MintCntTrie) (dyn : Int) (v : Address) :
    minedEnough a dyn v ↔ minedEnough b dyn v := by
  unfold minedEnough
  rw [h]

theorem checkActive_congr {a b : DynastyContext} {v : Address}
    (hg : a.GenesisDynasty = b.GenesisDynasty)
    (hc : v ∈ a.CandidateTrie ↔ v ∈ b.CandidateTrie) :
    checkActiveBootstrapValidator a v = checkActiveBootstrapValidator b v := by
  unfold checkActiveBootstrapValidator
  rw [hg]
  congr 1
  exact decide_eq_decide.mpr hc

/-- C5: during `kickoutDynasty(dyn)` each validator `v` of the dynasty trie
is judged exactly once on the pre-kick state: if `mintCnt` holds a count for
`(dyn, v)` at least `DYNASTY_INTERVAL / BLOCK_INTERVAL / DYNASTY_SIZE / 2`
(= 1) the validator is spared (its candidate membership, delegate rows and
incoming votes are untouched); otherwise, if it is an active bootstrap
validator (in the genesis dynasty and the current candidate trie) it is
protected and also untouched; otherwise it is kicked, i.e. its slice of the
final state is that of `kickoutCandidate` applied to it. -/
theorem kickoutDynasty_validator_fate (dc : DynastyContext) (dyn : Int)
    (v : Address) (hv : v ∈ dc.DynastyTrie) (hnd : dc.DynastyTrie.Nodup)
    (hvn : (dc.VoteTrie.map Prod.fst).Nodup) :
    (minedEnough dc dyn v → vSliceEq (kickoutDynasty dc dyn) dc v) ∧
    (¬ minedEnough dc dyn v → checkActiveBootstrapValidator dc v = true →
      vSliceEq (kickoutDynasty dc dyn) dc v) ∧
    (¬ minedEnough dc dyn v → checkActiveBootstrapValidator dc v = false →
      vSliceEq (kickoutDynasty dc dyn) (kickoutCandidate dc v) v) := by
  rcases List.append_of_mem hv with ⟨l1, l2, hsplit⟩
  have hnd2 : (l1 ++ v :: l2).Nodup := hsplit ▸ hnd
  rcases List.nodup_append.mp hnd2 with ⟨_, hndr, hdisj⟩
  have hv1 : v ∉ l1 := fun h => hdisj h (List.mem_cons_self v l2)
  have hv2 : v ∉ l2 := (List.nodup_cons.mp hndr).1
  unfold kickoutDynasty
  rw [hsplit, List.foldl_append, List.foldl_cons]
  obtain ⟨hs1, hn1⟩ := kickFold_slice_other dyn l1 dc hv1 hvn
  obtain ⟨hmint, hgen, _⟩ := kickFold_static dyn l1 dc
  have hmeq := minedEnough_congr hmint dyn v
  have hceq := checkActive_congr hgen hs1.1
  refine ⟨?_, ?_, ?_⟩
  · intro hm
    rw [(kickValidatorStep_self_eq dyn _ v).1 (hmeq.mpr hm)]
    obtain ⟨hs2, _⟩ := kickFold_slice_other dyn l2 _ hv2 hn1
    exact vSliceEq_trans hs2 hs1
  · intro hm hb
    rw [(kickValidatorStep_self_eq dyn _ v).2.1
      (fun h => hm (hmeq.mp h)) (hceq.trans hb)]
    obtain ⟨hs2, _⟩ := kickFold_slice_other dyn l2 _ hv2 hn1
    exact vSliceEq_trans hs2 hs1
  · intro hm hb
    rw [(kickValidatorStep_self_eq dyn _ v).2.2
      (fun h => hm (hmeq.mp h)) (hceq.trans hb)]
    have hn2 := kickoutCandidate_vote_nodup v hn1
    obtain ⟨hs3, _⟩ := kickFold_slice_other dyn l2 _ hv2 hn2
    exact vSliceEq_trans hs3 (kickoutCandidate_slice_self hs1 hn1 hvn)

/-- Witness for C5 on `dcFate`: the validator `v` has mint count 0 (below
the threshold) and is not a bootstrap validator, so the kicked branch
applies. -/
theorem kickoutDynasty_validator_fate_witness :
    (minedEnough dcFate 0 1 → vSliceEq (kickoutDynasty dcFate 0) dcFate 1) ∧
    (¬ minedEnough dcFate 0 1 →
      checkActiveBootstrapValidator dcFate 1 = true →
      vSliceEq (kickoutDynasty dcFate 0) dcFate 1) ∧
    (¬ minedEnough dcFate 0 1 →
      checkActiveBootstrapValidator dcFate 1 = false →
      vSliceEq (kickoutDynasty dcFate 0) (kickoutCandidate dcFate 1) 1) :=
  kickoutDynasty_validator_fate dcFate 0 1 (by decide) (by decide)
    (by decide)

/-! ### Lemmas about the election driver -/

theorem intRange_nil {base next : Int} (h : next ≤ base) :
    intRange base next = [] := by
  unfold intRange
  rw [show (next - base).toNat = 0 from by omega]
  rfl

theorem intRange_cons {base next : Int} (h : base < next) :
    intRange base next = base :: intRange (base + 1) next := by
  unfold intRange
  rw [show (next - base).toNat = (next - (base + 1)).toNat + 1 from by omega,
    List.range_succ_eq_map, List.map_cons, List.map_map]
  refine congrArg₂ _ (by simp) ?_
  refine List.map_congr_left ?_
  intro k _
  simp only [Function.comp_apply]
  push_cast
  ring

theorem intRange_single (next : Int) : intRange (next - 1) next = [next - 1] := by
  rw [intRange_cons (by omega), intRange_nil (by omega)]

theorem intRange_chain (base next : Int) :
    (intRange base next).Chain' (fun a b => b = a + 1) := by
  unfold intRange
  cases h : (next - base).toNat with
  | zero => simp
  | succ n =>
    rw [List.chain'_map, List.chain'_range_succ]
    intro m _
    push_cast
    ring

theorem electIter_eq_foldlM (nextID : Int) (g : Bool) :
    ∀ (n : Nat) (dc : DynastyContext),
      electIter nextID g n dc =
        List.foldlM (fun s i => electStep s i nextID g) dc
          (intRange (nextID - (n : Int)) nextID)
  | 0, dc => by
    rw [intRange_nil (by omega)]
    rfl
  | n + 1, dc => by
    rw [show ((n + 1 : Nat) : Int) = (n : Int) + 1 from by push_cast ; ring,
      show intRange (nextID - ((n : Int) + 1)) nextID
        = (nextID - ((n : Int) + 1)) :: intRange (nextID - (n : Int)) nextID by
      rw [intRange_cons (by omega)]
      exact congrArg₂ _ rfl (congrArg₂ _ (by ring) rfl),
      List.foldlM_cons]
    simp only [electIter]
    cases electStep dc (nextID - ((n : Int) + 1)) nextID g with
    | error e => rfl
    | ok dc' => exact electIter_eq_foldlM nextID g n dc'

theorem electNextDynastyOnBaseDynasty_eq (dc : DynastyContext)
    (base next : Int) (g : Bool) :
    electNextDynastyOnBaseDynasty dc base next g
      = List.foldlM (fun s i => electStep s i next g) dc
          (intRange (if g then next - 1 else base) next) := by
  unfold electNextDynastyOnBaseDynasty
  cases g with
  | true =>
    show electIter next true (next - (next - 1)).toNat dc = _
    rw [show (next - (next - 1)).toNat = 1 from by omega,
      electIter_eq_foldlM next true 1 dc,
      show next - ((1 : Nat) : Int) = next - 1 from by omega]
    simp
  | false =>
    show electIter next false (next - base).toNat dc = _
    by_cases hb : base ≤ next
    · rw [electIter_eq_foldlM next false _ dc,
        show next - (((next - base).toNat : Nat) : Int) = base from by omega]
      simp
    · rw [show (next - base).toNat = 0 from by omega,
        intRange_nil (show next ≤ if false = true then next - 1 else base from
          by simp ; omega)]
      rfl

/-- C2 counterexample: with `baseIsGenesis = true`, `base = 0 < next = 2`,
the function resets the base to `next - 1` and performs a single election
step instead of one step for every id in `[0, 2)`: starting from `dcThree`
the two computations end with different dynasty tries. -/
theorem electNextDynasty_trace_counterexample :
    (electNextDynastyOnBaseDynasty dcThree 0 2 true).map
        (fun dc => dc.DynastyTrie)
      ≠ (List.foldlM (fun s i => electStep s i 2 true) dcThree
          (intRange 0 2)).map (fun dc => dc.DynastyTrie) := by
  decide

/-- C2 amended: when `baseIsGenesis` is false,
`electNextDynastyOnBaseDynasty(base, next, _)` performs exactly one election
step for every integer id in `[base, next)` in increasing order with no
gaps (the enumeration `intRange base next` is a chain of successors); when
`baseIsGenesis` is true the base is first reset to `next - 1`, so exactly
one step runs, for id `next - 1`, regardless of `base`. -/
theorem electNextDynastyOnBaseDynasty_steps (dc : DynastyContext)
    (base next : Int) (g : Bool) :
    electNextDynastyOnBaseDynasty dc base next g
      = List.foldlM (fun s i => electStep s i next g) dc
          (if g then [next - 1] else intRange base next) ∧
    (intRange base next).Chain' (fun a b => b = a + 1) := by
  refine ⟨?_, intRange_chain base next⟩
  rw [electNextDynastyOnBaseDynasty_eq]
  cases g with
  | true => simp [intRange_single]
  | false => simp

/-- C1 counterexample: a run of `electNextDynastyOnBaseDynasty` from a
state with exactly three candidates (satisfying the `SafeSize = 3`
precondition) succeeds but elects a next dynasty of three validators, not
`DynastySize = 6`: the direct-selection loop stops at the end of the
candidate list and no tail member exists. -/
theorem electNextDynasty_size_counterexample :
    (electNextDynastyOnBaseDynasty dcThree 0 1 true).map
        (fun dc => dc.NextDynastyTrie.length) = Except.ok 3 ∧
    (3 : Nat) ≠ DynastySize := by
  decide

theorem electStep_false_eq (dc : DynastyContext) (i next : Int) :
    electStep dc i next false = electStep (kickoutDynasty dc i) i next true :=
  rfl

theorem electStep_true_size (dc : DynastyContext) (i next : Int)
    (dc' : DynastyContext)
    (hn : ((chooseCandidates dc (tallyVotes dc)).map Prod.fst).Nodup)
    (h : electStep dc i next true = .ok dc') :
    dc'.NextDynastyTrie.length
      = min (chooseCandidates dc (tallyVotes dc)).length DynastySize := by
  by_cases hlen : (chooseCandidates dc (tallyVotes dc)).length < SafeSize
  · simp only [electStep, if_true, ite_true] at h
    rw [if_pos hlen] at h
    exact absurd h (by simp)
  · have hNext : dc'.NextDynastyTrie =
        (if DynastySize - 1 < (chooseCandidates dc (tallyVotes dc)).length then
          triePut
            (((chooseCandidates dc (tallyVotes dc)).take
                (DynastySize - 1)).foldl (fun t c => triePut t c.1) [])
            (((chooseCandidates dc (tallyVotes dc)).getD
              (fnv32a (int64BE next ++ dc.AccountsRoot) %
                ((chooseCandidates dc (tallyVotes dc)).length -
                  (DynastySize - 1)) + (DynastySize - 1)) (0, 0)).1)
        else
          ((chooseCandidates dc (tallyVotes dc)).take (DynastySize - 1)).foldl
            (fun t c => triePut t c.1) []) := by
      simp only [electStep, if_true, ite_true] at h
      rw [if_neg hlen] at h
      simp only [Except.ok.injEq] at h
      rw [← h]
    set cands := chooseCandidates dc (tallyVotes dc) with hcands
    have hlen3 : SafeSize ≤ cands.length := Nat.le_of_not_lt hlen
    have hdirect :
        ((cands.take (DynastySize - 1)).foldl (fun t c => triePut t c.1) [])
          = ((cands.map Prod.fst).take (DynastySize - 1)).foldl triePut [] := by
      rw [← List.map_take, List.foldl_map]
    have hdlen :
        (((cands.map Prod.fst).take (DynastySize - 1)).foldl triePut []).length
          = min (DynastySize - 1) cands.length := by
      rw [length_foldl_triePut _ _
        ((List.take_sublist _ _).nodup hn) (by simp)]
      rw [List.length_take, List.length_map]
      simp
    by_cases htail : DynastySize - 1 < cands.length
    · rw [hNext, if_pos htail]
      set idx := fnv32a (int64BE next ++ dc.AccountsRoot) %
        (cands.length - (DynastySize - 1)) + (DynastySize - 1) with hidxdef
      have hidx : idx < cands.length := by
        have hmod : fnv32a (int64BE next ++ dc.AccountsRoot) %
            (cands.length - (DynastySize - 1)) <
            cands.length - (DynastySize - 1) :=
          Nat.mod_lt _ (by omega)
        omega
      have hidxk : idx < (cands.map Prod.fst).length := by
        rw [List.length_map]
        exact hidx
      have hgetD : cands.getD idx (0, 0) = cands.get ⟨idx, hidx⟩ := by
        rw [List.getD_eq_getElem?_getD, List.getElem?_eq_getElem hidx]
        rfl
      have hfst : (cands.get ⟨idx, hidx⟩).1
          = (cands.map Prod.fst).get ⟨idx, hidxk⟩ := by
        rw [List.get_map]
      have hnotmem : (cands.map Prod.fst).get ⟨idx, hidxk⟩
          ∉ ((cands.map Prod.fst).take (DynastySize - 1)).foldl triePut [] := by
        rw [mem_foldl_triePut]
        rintro (habs | hmem)
        · simp at habs
        · rcases List.mem_iff_get.mp hmem with ⟨⟨j, hj⟩, hget⟩
          have hj5 : j < DynastySize - 1 := by
            rw [List.length_take] at hj
            omega
          have hjk : j < (cands.map Prod.fst).length := by
            rw [List.length_take, List.length_map] at hj
            rw [List.length_map]
            omega
          have heq : (cands.map Prod.fst).get ⟨j, hjk⟩
              = (cands.map Prod.fst).get ⟨idx, hidxk⟩ := by
            refine Eq.trans ?_ hget
            exact List.getElem_take' (cands.map Prod.fst) hjk hj5
          have := hn.get_inj_iff.mp heq
          rw [Fin.mk.injEq] at this
          omega
      rw [hgetD, hfst, length_triePut, hdirect, if_neg hnotmem, hdlen]
      simp only [DynastySize] at htail ⊢
      omega
    · rw [hNext, if_neg htail, hdirect, hdlen]
      simp only [DynastySize, SafeSize] at htail hlen3 ⊢
      omega

/-- C1 amended: every election step of `electNextDynastyOnBaseDynasty` that
returns without error elects a `nextDynasty` trie with exactly
`min(#candidates, DYNASTY_SIZE)` validators, where `#candidates` is the
length of the ranked candidate list of that step (`electCandidates`): when
at least `DYNASTY_SIZE` candidates remain this is exactly `DYNASTY_SIZE`
(`DYNASTY_SIZE - 1` chosen from the head of the list plus one
pseudo-randomly selected tail member), but with `SAFE_SIZE ≤ #candidates <
DYNASTY_SIZE` the elected dynasty has only `#candidates` members. -/
theorem electStep_nextDynasty_size (dc : DynastyContext) (i next : Int)
    (g : Bool) (dc' : DynastyContext) (hg : dc.GenesisDynasty.Nodup)
    (h : electStep dc i next g = .ok dc') :
    dc'.NextDynastyTrie.length
      = min (electCandidates dc i g).length DynastySize := by
  cases g with
  | true =>
    exact electStep_true_size dc i next dc'
      (chooseCandidates_keys_nodup dc _ hg (tallyVotes_keys_nodup dc)) h
  | false =>
    rw [electStep_false_eq] at h
    have hg2 : (kickoutDynasty dc i).GenesisDynasty.Nodup := by
      rw [show (kickoutDynasty dc i).GenesisDynasty = dc.GenesisDynasty from
        (kickFold_static i dc.DynastyTrie dc).2.1]
      exact hg
    exact electStep_true_size (kickoutDynasty dc i) i next dc'
      (chooseCandidates_keys_nodup (kickoutDynasty dc i) _ hg2
        (tallyVotes_keys_nodup (kickoutDynasty dc i))) h

set_option maxRecDepth 10000 in
/-- Witness for the amended C1 on a seven-candidate state: the elected trie
has `min 7 6 = 6` members. -/
theorem electStep_nextDynasty_size_witness :
    (electStep dcSeven 0 1 true).map (fun dc => dc.NextDynastyTrie.length)
      = Except.ok (min (electCandidates dcSeven 0 true).length DynastySize) := by
  cases hE : electStep dcSeven 0 1 true with
  | error e =>
    have hOk : (electStep dcSeven 0 1 true).isOk = true := by decide
    rw [hE] at hOk
    exact absurd hOk (by simp [Except.isOk, Except.toBool])
  | ok dc' =>
    simp only [Except.map]
    rw [electStep_nextDynasty_size dcSeven 0 1 true dc' (by decide) hE]

/-! ### Error discrimination in the scheduler view -/

theorem electStep_error {dc : DynastyContext} {i next : Int} {g : Bool}
    {e : DposError} (h : electStep dc i next g = .error e) :
    e = .tooFewCandidates := by
  simp only [electStep] at h
  split at h
  all_goals split at h
  all_goals try exact ((Except.error.injEq _ _).mp h).symm
  all_goals exact absurd h (by simp)

theorem electIter_error (nextID : Int) (g : Bool) :
    ∀ (n : Nat) (dc : DynastyContext) (e : DposError),
      electIter nextID g n dc = .error e → e = .tooFewCandidates
  | 0, dc, e => by
    intro h
    exact absurd h (by simp [electIter])
  | n + 1, dc, e => by
    intro h
    simp only [electIter] at h
    cases hs : electStep dc (nextID - ((n : Int) + 1)) nextID g with
    | error e2 =>
      rw [hs] at h
      simp only [Except.error.injEq] at h
      rw [← h]
      exact electStep_error hs
    | ok dc' =>
      rw [hs] at h
      exact electIter_error nextID g n dc' e h

theorem electNextDynastyOnBaseDynasty_error {dc : DynastyContext}
    {base next : Int} {g : Bool} {e : DposError}
    (h : electNextDynastyOnBaseDynasty dc base next g = .error e) :
    e = .tooFewCandidates := by
  unfold electNextDynastyOnBaseDynasty at h
  exact electIter_error next g _ dc e h

theorem except_bind_ok {ε α β : Type} {E : Except ε α} {f : α → Except ε β}
    {c : β} (h : E.bind f = .ok c) : ∃ a, E = .ok a ∧ f a = .ok c := by
  cases E with
  | error e => exact absurd h (by simp [Except.bind])
  | ok a => exact ⟨a, rfl, h⟩

theorem except_bind_error {ε α β : Type} {E : Except ε α}
    {f : α → Except ε β} {e : ε} (h : E.bind f = .error e) :
    E = .error e ∨ ∃ a, E = .ok a ∧ f a = .error e := by
  cases E with
  | error e2 =>
    left
    rw [show (Except.error e2 : Except ε α).bind f
        = (Except.error e2 : Except ε β) from rfl] at h
    rw [(Except.error.injEq _ _).mp h]
  | ok a => exact Or.inr ⟨a, rfl, h⟩

theorem elected_error {context : DynastyContext} {baseID newID : Int}
    {g : Bool} {e : DposError}
    (h : (if baseID < newID then
        (if baseID + 1 < newID then
          electNextDynastyOnBaseDynasty context baseID (newID - 1) g
        else
          .ok context).bind
          (fun ctx => electNextDynastyOnBaseDynasty ctx (newID - 1) newID g)
      else
        .ok context) = .error e) :
    e = .tooFewCandidates := by
  by_cases h1 : baseID < newID
  · rw [if_pos h1] at h
    rcases except_bind_error h with h2 | ⟨a, _, h3⟩
    · by_cases h4 : baseID + 1 < newID
      · rw [if_pos h4] at h2
        exact electNextDynastyOnBaseDynasty_error h2
      · rw [if_neg h4] at h2
        exact absurd h2 (by simp)
    · exact electNextDynastyOnBaseDynasty_error h3
  · rw [if_neg h1] at h
    exact absurd h (by simp)

/-- C4: `NextDynastyContext` fails with `NOT_BLOCK_FORGE_TIME` exactly when
`(block.timestamp + elapsedSecond) mod DYNASTY_INTERVAL` is not divisible
by `BLOCK_INTERVAL` (Go's truncated remainder); the alignment check runs
before any election, so a misaligned timestamp yields this error whatever
the election state, and on an aligned timestamp the elections can only
fail with `TOO_FEW_CANDIDATES` (or the negative-slot panic), never with
`NOT_BLOCK_FORGE_TIME`. -/
theorem nextDynastyContext_forge_time_iff (b : Block) (elapsedSecond : Int) :
    b.NextDynastyContext elapsedSecond
        = .error .notBlockForgeTime ↔
      ((b.timestamp + elapsedSecond).tmod DynastyInterval).tmod BlockInterval
        ≠ 0 := by
  simp only [Block.NextDynastyContext]
  by_cases hal : ((b.timestamp + elapsedSecond).tmod DynastyInterval).tmod
      BlockInterval ≠ 0
  · rw [if_pos hal]
    exact iff_of_true rfl hal
  · rw [if_neg hal]
    constructor
    · intro h
      exfalso
      rcases except_bind_error h with h2 | ⟨a, _, h3⟩
      · exact absurd (elected_error h2) (by simp)
      · by_cases hoff : ((((b.timestamp + elapsedSecond).tmod
            DynastyInterval).tdiv BlockInterval).tmod (DynastySize : Int)) < 0
        · rw [if_pos hoff] at h3
          exact absurd h3 (by simp)
        · rw [if_neg hoff] at h3
          exact absurd h3 (by simp)
    · intro h
      exact absurd h hal

/-- C3: whenever `NextDynastyContext` returns a context, its `Proposer` is
the entry of the (post-election) current dynasty trie, enumerated in
trie-iteration order by `TraverseDynasty`, at index
`((timestamp mod DYNASTY_INTERVAL) / BLOCK_INTERVAL) mod DYNASTY_SIZE`
(`timestamp = block.timestamp + elapsedSecond`, Go truncated division), and
`none` when that index is at least the number of dynasty members
(`List.get?` is `none` exactly then). -/
theorem nextDynastyContext_proposer (b : Block) (elapsedSecond : Int)
    (ctx : DynastyContext)
    (h : b.NextDynastyContext elapsedSecond = .ok ctx) :
    ctx.Proposer = (TraverseDynasty ctx.DynastyTrie).get?
      (((((b.timestamp + elapsedSecond).tmod DynastyInterval).tdiv
        BlockInterval).tmod ((DynastySize : Nat) : Int)).toNat) := by
  simp only [Block.NextDynastyContext] at h
  by_cases hal : ((b.timestamp + elapsedSecond).tmod DynastyInterval).tmod
      BlockInterval ≠ 0
  · rw [if_pos hal] at h
    exact absurd h (by simp)
  · rw [if_neg hal] at h
    rcases except_bind_ok h with ⟨ctx0, _, hf⟩
    by_cases hoff : ((((b.timestamp + elapsedSecond).tmod
        DynastyInterval).tdiv BlockInterval).tmod (DynastySize : Int)) < 0
    · rw [if_pos hoff] at hf
      exact absurd hf (by simp)
    · rw [if_neg hoff] at hf
      simp only [Except.ok.injEq] at hf
      rw [← hf]

/-- Witness for C3: at timestamp 10 on `blkSlot` (dynasty `[1, 2, 3]`) the
slot index is `(10 / 5) % 6 = 2` and the proposer is the third member. -/
theorem nextDynastyContext_proposer_witness :
    (blkSlot.NextDynastyContext 10).map (fun c => c.Proposer)
        = Except.ok (some 3) ∧
    (blkSlot.NextDynastyContext 10).map (fun c => c.Proposer)
      = (blkSlot.NextDynastyContext 10).map (fun c =>
          (TraverseDynasty c.DynastyTrie).get?
            (((((blkSlot.timestamp + 10).tmod DynastyInterval).tdiv
              BlockInterval).tmod ((DynastySize : Nat) : Int)).toNat)) := by
  refine ⟨by decide, ?_⟩
  cases hE : blkSlot.NextDynastyContext 10 with
  | error e => rfl
  | ok ctx =>
    simp only [Except.map]
    rw [nextDynastyContext_proposer blkSlot 10 ctx hE]

/-! ### Lemmas about the genesis context -/

theorem self_mem_assocPut {β : Type} (m : List (Address × β)) (k : Address)
    (w : β) : (k, w) ∈ assocPut m k w := by
  unfold assocPut
  by_cases h : m.any (fun p => decide (p.1 = k))
  · rw [if_pos h]
    rcases List.any_eq_true.mp h with ⟨p, hp, hpk⟩
    refine List.mem_map.mpr ⟨p, hp, ?_⟩
    rw [if_pos (by simpa using hpk)]
  · rw [if_neg h]
    simp

theorem mem_assocPut_of_ne {β : Type} {m : List (Address × β)}
    {a k : Address} {b w : β} (hm : (a, b) ∈ m) (hk : a ≠ k) :
    (a, b) ∈ assocPut m k w := by
  unfold assocPut
  by_cases h : m.any (fun p => decide (p.1 = k))
  · rw [if_pos h]
    refine List.mem_map.mpr ⟨(a, b), hm, ?_⟩
    rw [if_neg hk]
  · rw [if_neg h]
    exact List.mem_append_left _ hm

theorem self_vote_mem_assocPut {m : List (Address × Address)}
    {v : Address} (hm : (v, v) ∈ m) (w : Address) :
    (v, v) ∈ assocPut m w w := by
  by_cases hvw : v = w
  · subst hvw
    exact self_mem_assocPut m v v
  · exact mem_assocPut_of_ne hm hvw

theorem mem_delegatePut {t : List (Address × Address)}
    {k x : Address × Address} : x ∈ delegatePut t k ↔ x ∈ t ∨ x = k := by
  unfold delegatePut
  by_cases h : k ∈ t
  · rw [if_pos h]
    constructor
    · exact Or.inl
    · rintro (hx | rfl)
      · exact hx
      · exact h
  · rw [if_neg h]
    simp

theorem genesisLoop_candidate :
    ∀ (l : List Address) (i : Nat) (st : GenesisState) (x : Address),
      x ∈ (genesisLoop i l st).candidate ↔ x ∈ st.candidate ∨ x ∈ l
  | [], i, st, x => by simp [genesisLoop]
  | v :: l, i, st, x => by
    rw [genesisLoop, genesisLoop_candidate l (i + 1) _ x]
    show x ∈ triePut st.candidate v ∨ _ ↔ _
    rw [mem_triePut]
    simp only [List.mem_cons]
    tauto

theorem genesisLoop_vote :
    ∀ (l : List Address) (i : Nat) (st : GenesisState) (v : Address),
      v ∈ l ∨ (v, v) ∈ st.vote → (v, v) ∈ (genesisLoop i l st).vote
  | [], i, st, v => by
    rintro (h | h)
    · simp at h
    · exact h
  | w :: l, i, st, v => by
    intro hv
    rw [genesisLoop]
    refine genesisLoop_vote l (i + 1) _ v ?_
    rcases hv with hv | hv
    · rcases List.mem_cons.mp hv with rfl | hv2
      · exact Or.inr (self_mem_assocPut st.vote v v)
      · exact Or.inl hv2
    · exact Or.inr (self_vote_mem_assocPut hv w)

theorem genesisLoop_delegate :
    ∀ (l : List Address) (i : Nat) (st : GenesisState) (v : Address),
      v ∈ l ∨ (v, v) ∈ st.delegate → (v, v) ∈ (genesisLoop i l st).delegate
  | [], i, st, v => by
    rintro (h | h)
    · simp at h
    · exact h
  | w :: l, i, st, v => by
    intro hv
    rw [genesisLoop]
    refine genesisLoop_delegate l (i + 1) _ v ?_
    rcases hv with hv | hv
    · rcases List.mem_cons.mp hv with rfl | hv2
      · exact Or.inr (mem_delegatePut.mpr (Or.inr rfl))
      · exact Or.inl hv2
    · exact Or.inr (mem_delegatePut.mpr (Or.inl hv))

theorem genesisLoop_dynasty :
    ∀ (l : List Address) (i : Nat) (st : GenesisState) (x : Address),
      x ∈ (genesisLoop i l st).dynasty ↔
        x ∈ st.dynasty ∨ x ∈ l.take (DynastySize - i)
  | [], i, st, x => by simp [genesisLoop]
  | v :: l, i, st, x => by
    rw [genesisLoop, genesisLoop_dynasty l (i + 1) _ x]
    by_cases hi : i < DynastySize
    · show x ∈ (if i < DynastySize then triePut st.dynasty v else st.dynasty)
          ∨ _ ↔ _
      rw [if_pos hi, mem_triePut,
        show DynastySize - i = (DynastySize - (i + 1)) + 1 from by omega,
        List.take_succ_cons]
      simp only [List.mem_cons]
      tauto
    · show x ∈ (if i < DynastySize then triePut st.dynasty v else st.dynasty)
          ∨ _ ↔ _
      rw [if_neg hi,
        show DynastySize - i = 0 from by omega,
        show DynastySize - (i + 1) = 0 from by omega]
      simp

/-- C8: `GenesisDynastyContext` fails with `INITIAL_DYNASTY_NOT_ENOUGH`
exactly when the configured dynasty list has fewer than `SafeSize` entries;
on success every configured address is a key of `candidate`, self-votes in
`vote` and self-delegates in `delegate` under the key `v ‖ v`, the
`dynasty` trie holds exactly the first `DynastySize` configured addresses,
and `nextDynasty` is a clone of `dynasty`. -/
theorem genesisDynastyContext_spec (conf : List Address) :
    (GenesisDynastyContext conf = .error .initialDynastyNotEnough ↔
      conf.length < SafeSize) ∧
    (∀ ctx, GenesisDynastyContext conf = .ok ctx →
      (∀ v ∈ conf, v ∈ ctx.CandidateTrie ∧ (v, v) ∈ ctx.VoteTrie ∧
        (v, v) ∈ ctx.DelegateTrie) ∧
      (∀ v, v ∈ ctx.DynastyTrie ↔ v ∈ conf.take DynastySize) ∧
      ctx.NextDynastyTrie = ctx.DynastyTrie) := by
  constructor
  · unfold GenesisDynastyContext
    by_cases h : conf.length < SafeSize
    · rw [if_pos h]
      exact iff_of_true rfl h
    · rw [if_neg h]
      constructor
      · intro habs
        exact absurd habs (by simp)
      · intro habs
        exact absurd habs h
  · intro ctx hctx
    unfold GenesisDynastyContext at hctx
    by_cases h : conf.length < SafeSize
    · rw [if_pos h] at hctx
      exact absurd hctx (by simp)
    · rw [if_neg h] at hctx
      simp only [Except.ok.injEq] at hctx
      subst hctx
      refine ⟨?_, ?_, rfl⟩
      · intro v hv
        exact ⟨(genesisLoop_candidate conf 0 {} v).mpr (Or.inr hv),
          genesisLoop_vote conf 0 {} v (Or.inl hv),
          genesisLoop_delegate conf 0 {} v (Or.inl hv)⟩
      · intro v
        show v ∈ (genesisLoop 0 conf {}).dynasty ↔ _
        rw [genesisLoop_dynasty conf 0 {} v]
        simp

/-- Witness for C8 on the seven-address configuration: the underflow iff is
instantiated and the success conclusions are checked on the computed
context for address 3 (and the next-dynasty clone). -/
theorem genesisDynastyContext_spec_witness :
    (GenesisDynastyContext [1, 2, 3, 4, 5, 6, 7]
        = Except.error DposError.initialDynastyNotEnough ↔
      ([1, 2, 3, 4, 5, 6, 7] : List Address).length < SafeSize) ∧
    (GenesisDynastyContext [1, 2, 3, 4, 5, 6, 7]).map
        (fun ctx => decide (3 ∈ ctx.CandidateTrie ∧ (3, 3) ∈ ctx.VoteTrie ∧
          (3, 3) ∈ ctx.DelegateTrie ∧ ctx.NextDynastyTrie = ctx.DynastyTrie))
      = Except.ok true := by
  constructor
  · exact (genesisDynastyContext_spec [1, 2, 3, 4, 5, 6, 7]).1
  · cases hE : GenesisDynastyContext [1, 2, 3, 4, 5, 6, 7] with
    | error e =>
      have hOk : (GenesisDynastyContext [1, 2, 3, 4, 5, 6, 7]).isOk = true := by
        decide
      rw [hE] at hOk
      exact absurd hOk (by simp [Except.isOk, Except.toBool])
    | ok ctx =>
      obtain ⟨hmem, _, hnext⟩ :=
        (genesisDynastyContext_spec [1, 2, 3, 4, 5, 6, 7]).2 ctx hE
      obtain ⟨h1, h2, h3⟩ := hmem 3 (by decide)
      simp only [Except.map]
      exact congrArg Except.ok (decide_eq_true ⟨h1, h2, h3, hnext⟩)
